import Mathlib

/-!
Verification of the storey flow engine (`src/storey/flow.py`) against its
specification. The Python source is shallowly embedded: each step's `_do`
method becomes a pure Lean function over an explicit state, fallible paths
return `Except PyErr`, and Python's dynamic event-or-body values are modelled
with a sum type.
-/

namespace Storey

/-- Python exception kinds raised by the code under `src/storey/flow.py`.
`userError` stands for an arbitrary exception raised by user code or by an
awaited external handle. -/
inductive PyErr where
  | typeError
  | valueError
  | attributeError
  | keyError
  | flowError
  | v3ioError
  | userError (code : Nat)
deriving DecidableEq

/-- An event flowing through the graph (`storey.dtypes.Event`, as described by
the spec's data model): a body, an optional key and an optional time. The body
type is a parameter; times are abstract instants. -/
structure Event (α : Type) where
  body : α
  key : Option String := none
  time : Option Nat := none
deriving DecidableEq

/-- Value produced by `Flow._get_safe_event_or_body` (flow.py lines 55-60): a
(shallow) copy of the full event when `full_event` is set, the event's body
otherwise. Python's dynamic event-or-body value is a sum; a pure shallow copy
is the event value itself. -/
def getSafeEventOrBody (full_event : Bool) (e : Event α) : Event α ⊕ α :=
  if full_event then Sum.inl e else Sum.inr e.body

/-! ## Reduce (flow.py lines 309-345) -/

/-- The state of a `Reduce` step: the `full_event` flag, the reducing function
`fn` (over the dynamic event-or-body element), and the accumulator `_result`,
initialised to `initial_value` by `Reduce.__init__` (flow.py line 329). -/
structure ReduceStep (α β : Type) where
  full_event : Bool
  fn : β → (Event α ⊕ α) → β
  result : β

/-- The element `Reduce._do` passes to `fn` (flow.py lines 338-341): the event
itself when `full_event` is set, its body otherwise. -/
def reduceElem (full_event : Bool) (e : Event α) : Event α ⊕ α :=
  if full_event then Sum.inl e else Sum.inr e.body

/-- `Reduce._do` on a non-sentinel event (flow.py lines 334-345, else branch):
`self._result = self._fn(self._result, elem)`. -/
def ReduceStep.doEvent (s : ReduceStep α β) (e : Event α) : ReduceStep α β :=
  { s with result := s.fn s.result (reduceElem s.full_event e) }

/-- `Reduce._do` on the termination sentinel (flow.py lines 335-336): returns
the accumulator as the termination-result. -/
def ReduceStep.doTermination (s : ReduceStep α β) : β :=
  s.result

/-- Processing a finite sequence of non-sentinel events in arrival order. -/
def ReduceStep.runEvents (s : ReduceStep α β) (events : List (Event α)) :
    ReduceStep α β :=
  events.foldl ReduceStep.doEvent s

/-! ## Flow._do_downstream on the termination sentinel (flow.py lines 39-46) -/

/-- Result of `Flow._do_downstream` on the termination sentinel, given the list
of termination-results returned by the outlets' `_do(_termination_obj)` calls,
in outlet order (flow.py lines 39-46). With no outlets the Python function
returns `None`; otherwise the first outlet's result seeds the accumulator and
each further result is folded in with `termination_result_fn`. -/
def doDownstreamTermination (fn : Option γ → Option γ → Option γ) :
    List (Option γ) → Option γ
  | [] => none
  | r :: rs => rs.foldl fn r

/-- The default `termination_result_fn` (flow.py line 13):
`lambda x, y: x if x is not None else y`. -/
def defaultTerminationResultFn (x y : Option γ) : Option γ :=
  if x.isSome then x else y

/-! ## _ConcurrentJobExecution worker and submission path (flow.py lines 384-437)

The worker dequeues `(event, handle)` pairs from the bounded FIFO. Awaiting a
handle either yields a response or raises; `_handle_completed` emits
downstream. The exception handler (flow.py lines 399-402, and identically
lines 484-487 in `_ConcurrentByKeyJobExecution`) dequeues at most one item
before re-raising, and the `finally` block runs `_cleanup` on every exit
path. -/

/-- An entry of the concurrent-execution FIFO: the termination sentinel or an
`(event, handle)` pair whose awaited handle resolves to a response of type `ρ`
or raises. -/
inductive Job (α ρ : Type) where
  | termination
  | pair (event : Event α) (handle : Except PyErr ρ)

/-- Outcome of one run of `_ConcurrentJobExecution._worker`: the
`(event, response)` pairs passed to `_handle_completed` in order, the FIFO
contents left behind, whether the `finally` block ran `_cleanup`, and the
exception that propagated, if any. -/
structure WorkerRun (α ρ : Type) where
  completed : List (Event α × ρ)
  queueAfter : List (Job α ρ)
  cleanupRan : Bool
  raised : Option PyErr

/-- The queue drain performed by the worker's exception handler (flow.py lines
400-401): if the queue is not empty, a single item is dequeued (FIFO, so the
head). -/
def workerExceptDrain (q : List δ) : List δ :=
  if q.isEmpty then q else q.tail

/-- `_ConcurrentJobExecution._worker` (flow.py lines 390-404) over the
successive contents of the FIFO: dequeues jobs in order; on the sentinel
breaks out of the loop; on a pair awaits the handle and calls
`_handle_completed`; if awaiting raises, the except-branch dequeues at most
one further item and re-raises; the finally-branch runs `_cleanup` whenever
the loop exits. An exhausted job list models a worker still blocked on
`self._q.get()`. -/
def workerLoop : List (Job α ρ) → List (Event α × ρ) → WorkerRun α ρ
  | [], acc => ⟨acc.reverse, [], false, none⟩
  | .termination :: rest, acc => ⟨acc.reverse, rest, true, none⟩
  | .pair e h :: rest, acc =>
      match h with
      | .ok r => workerLoop rest ((e, r) :: acc)
      | .error ex => ⟨acc.reverse, workerExceptDrain rest, true, some ex⟩

/-- How the worker task terminated, as observed by the submission path. -/
inductive WorkerOutcome where
  | raised (ex : PyErr)
  | finished
deriving DecidableEq

/-- The check at the start of `_do` (flow.py lines 424-426, and identically
lines 497-499): when the worker task is done, `_do` first awaits it — awaiting
a task that terminated with an exception re-raises that exception — and only
when that await returns normally does execution reach
`raise FlowError("ConcurrentJobExecution worker has already terminated")`. -/
def submissionCheckError : WorkerOutcome → PyErr
  | .raised ex => ex
  | .finished => .flowError

/-! ## Batch (_Batching, flow.py lines 574-646) -/

/-- A batch emitted downstream by `Batch._emit` (flow.py lines 644-646): the
list of projected events wrapped as a single event whose `time` is the
batch's `batch_time`. -/
abbrev EmittedBatch (α : Type) := Event (List (Event α ⊕ α))

/-- The mutable state of a `_Batching` step relevant without a timeout:
`_event_count`, `_batch` and `_batch_time` (flow.py lines 578-581). -/
structure BatchingState (α : Type) where
  event_count : Nat
  batch : List (Event α ⊕ α)
  batch_time : Option Nat
deriving DecidableEq

/-- The state set by `_Batching.__init__` (flow.py lines 578-581). -/
def BatchingState.initial : BatchingState α :=
  ⟨0, [], none⟩

/-- `_Batching._emit_batch` (flow.py lines 622-630): when the batch is
non-empty, resets the state and emits it; `Batch._emit` (lines 644-646) wraps
the batch in a downstream event carrying `batch_time`. -/
def batchingEmitBatch (st : BatchingState α) :
    BatchingState α × List (EmittedBatch α) :=
  if st.batch.isEmpty then (st, [])
  else (⟨0, [], none⟩, [{ body := st.batch, time := st.batch_time }])

/-- `_Batching._do` on a non-sentinel event with no timeout configured
(flow.py lines 608-620; `timeout_secs` is `None`, so no timeout task is ever
scheduled or cancelled): on a fresh batch records `batch_time = event.time`;
increments `_event_count` and appends `_event_to_batch_entry(event)` (lines
598-599, i.e. `_get_safe_event_or_body`); when `_event_count` reaches
`max_events`, emits the batch. -/
def batchingDoEvent (full_event : Bool) (max_events : Option Nat)
    (st : BatchingState α) (e : Event α) :
    BatchingState α × List (EmittedBatch α) :=
  let st1 := if st.batch.isEmpty then { st with batch_time := e.time } else st
  let st2 := { st1 with event_count := st1.event_count + 1,
                        batch := st1.batch ++ [getSafeEventOrBody full_event e] }
  if some st2.event_count = max_events then batchingEmitBatch st2 else (st2, [])

/-- `_Batching._do` on the termination sentinel with no timeout (flow.py
lines 602-607): emits any partial batch (then runs the no-op `_terminate`
hook), and only afterwards forwards the sentinel downstream. -/
def batchingDoTermination (st : BatchingState α) :
    BatchingState α × List (EmittedBatch α) :=
  batchingEmitBatch st

/-- Processing a list of non-sentinel events in order, collecting the emitted
batches in emission order. -/
def batchingRunEvents (full_event : Bool) (max_events : Option Nat)
    (st : BatchingState α) :
    List (Event α) → BatchingState α × List (EmittedBatch α)
  | [] => (st, [])
  | e :: es =>
      let p := batchingDoEvent full_event max_events st e
      let q := batchingRunEvents full_event max_events p.1 es
      (q.1, p.2 ++ q.2)

/-- A full run of a `Batch` step: the given events in order, then the
termination sentinel; yields all emitted batches in emission order (the
sentinel's partial-batch emission last, before the sentinel is forwarded). -/
def batchingRun (full_event : Bool) (max_events : Option Nat)
    (events : List (Event α)) : List (EmittedBatch α) :=
  let p := batchingRunEvents full_event max_events BatchingState.initial events
  p.2 ++ (batchingDoTermination p.1).2

/-! ## Complete (flow.py lines 290-306) -/

/-- Observable actions performed by `Complete._do`, in program order:
forwarding the event to the downstream subtree, and settling the event's
awaitable result with a value. -/
inductive CompleteAction (α : Type) where
  | downstream (e : Event α)
  | settle (v : Event α ⊕ α)
deriving DecidableEq

/-- `Complete._do` on a non-sentinel event (flow.py lines 299-306): first
`await self._do_downstream(event)` — `downstream` abstracts the subtree
rooted at this step and returns the trace of actions it performs before
returning — and only once it has returned, read `event._awaitable_result`
and settle it with `_get_safe_event_or_body(event)`. When the event's
`_awaitable_result` is `None`, the attribute access `._set_result` raises
`AttributeError` (downstream processing has already completed). Returns the
actions performed, in order, and the outcome. -/
def completeDo (full_event : Bool)
    (downstream : Event α → List (CompleteAction α))
    (awaitable_result : Option Unit) (e : Event α) :
    List (CompleteAction α) × Except PyErr Unit :=
  match awaitable_result with
  | some _ =>
      (downstream e ++ [.settle (getSafeEventOrBody full_event e)], .ok ())
  | none => (downstream e, .error .attributeError)

/-! ## Choice (flow.py lines 71-111) -/

/-- A `Choice` step (flow.py lines 88-97): the ordered `(outlet, condition)`
pairs, the optional default outlet, and the `full_event` flag. Outlets are
identified by numbers. -/
structure ChoiceStep (α : Type) where
  choice_array : List (Nat × (Event α ⊕ α → Bool))
  default : Option Nat
  full_event : Bool

/-- The `_outlets` list built by `Choice.__init__` (flow.py lines 92-96): the
choice-array outlets in order, then the default outlet when configured. -/
def ChoiceStep.outlets (c : ChoiceStep α) : List Nat :=
  c.choice_array.map Prod.fst ++ c.default.toList

/-- The outlets a non-sentinel event is delivered to by `Choice._do`
(flow.py lines 99-111): with no outlets the event goes to the base
`_do_downstream`, a no-op; otherwise the outlet of the first condition that
evaluates truthy on `_get_safe_event_or_body(event)` receives the event;
failing that, the default outlet when configured; otherwise none. -/
def ChoiceStep.deliveries (c : ChoiceStep α) (e : Event α) : List Nat :=
  if c.outlets.isEmpty then []
  else
    match c.choice_array.find?
        (fun q => q.2 (getSafeEventOrBody c.full_event e)) with
    | some q => [q.1]
    | none => c.default.toList

/-- The outlets the termination sentinel is forwarded to by `Choice._do`
(flow.py lines 100-101): the sentinel goes to the base `_do_downstream`,
which forwards it to every outlet, in outlet order. -/
def ChoiceStep.terminationDeliveries (c : ChoiceStep α) : List Nat :=
  c.outlets

/-! ## build_flow (flow.py lines 752-780) -/

/-- An element of the (possibly nested) list handed to `build_flow`: a step,
identified by a number, or a nested list denoting a branch. -/
inductive FlowElem where
  | step (id : Nat)
  | nested (elems : List FlowElem)

/-- An edge created by `Flow.to`: the source step's identifier and the raw
element appended to its `_outlets`. -/
abbrev FlowEdge := Nat × FlowElem

/-- `Flow.to` (flow.py lines 24-26) at graph level: `cur.to(target)` appends
`target` to `cur`'s outlets and creates an edge; calling `.to` on a nested
list (which is not a step) is Python's `AttributeError`. -/
def flowTo : FlowElem → FlowElem → Except PyErr FlowEdge
  | .step i, target => .ok (i, target)
  | .nested _, _ => .error .attributeError

mutual

/-- `build_flow` (flow.py lines 752-780): raises `ValueError` on an empty
list; otherwise walks the outer list from the second element with `cur_step`
initially the first element, and returns the first element together with the
list of edges created, in creation order. -/
def build_flow : List FlowElem → Except PyErr (FlowElem × List FlowEdge)
  | [] => .error .valueError
  | first :: rest => do
      let edges ← buildRest first rest
      pure (first, edges)
termination_by l => sizeOf l

/-- The loop of `build_flow` (flow.py lines 774-779): a nested list is
recursively built and its head attached as an additional outlet of
`cur_step` without advancing `cur_step`; a plain step is attached as an
outlet of `cur_step` and becomes the new `cur_step`. The recursive build of
a nested list runs before the attaching `to`, so its edges come first. -/
def buildRest (cur : FlowElem) : List FlowElem → Except PyErr (List FlowEdge)
  | [] => pure []
  | .nested elems :: rest => do
      let sub ← build_flow elems
      let edge ← flowTo cur sub.1
      let more ← buildRest cur rest
      pure (sub.2 ++ edge :: more)
  | .step i :: rest => do
      let edge ← flowTo cur (.step i)
      let more ← buildRest (.step i) rest
      pure (edge :: more)
termination_by l => sizeOf l

end

/-! ## Construction-time checks (flow.py lines 114-118, 323-332, 584-586,
714-722, 771-772) -/

/-- `_UnaryFunctionFlow.__init__` (flow.py lines 114-118): a non-callable
`fn` raises `TypeError`. Map, Filter, FlatMap and Extend inherit this check;
`_FunctionWithStateFlow.__init__` (lines 200-203, used by MapWithState) and
`Reduce.__init__` (lines 323-326) repeat it verbatim. Python callability is
modelled as a flag of the argument. -/
def unaryFunctionFlowInit (fn_is_callable : Bool) : Except PyErr Unit :=
  if fn_is_callable then .ok () else .error .typeError

/-- The timeout validation in `_Batching.__init__` (flow.py lines 584-586):
a `timeout_secs` that is not `None` and `<= 0` raises `ValueError`. Numeric
timeouts are modelled as rationals. -/
def batchingInitTimeout (timeout_secs : Option ℚ) : Except PyErr Unit :=
  match timeout_secs with
  | some t => if t ≤ 0 then .error .valueError else .ok ()
  | none => .ok ()

/-- The table argument of `JoinWithTable.__init__`: a Table object
(identified by a number) or a table name. -/
inductive TableArg where
  | table (id : Nat)
  | name (s : String)

/-- The table resolution in `JoinWithTable.__init__` (flow.py lines
714-722): a string table name with no context raises `TypeError`; with a
context the name is looked up via `Context.get_table` (lines 810-811), whose
missing-key dictionary access is Python's `KeyError`. -/
def joinWithTableInitTable (table : TableArg)
    (context : Option (List (String × Nat))) : Except PyErr Nat :=
  match table with
  | .table i => .ok i
  | .name s =>
      match context with
      | none => .error .typeError
      | some tables =>
          match tables.find? (fun p => p.1 == s) with
          | some p => .ok p.2
          | none => .error .keyError

/-- `Reduce.to` (flow.py lines 331-332): Reduce is a terminal step;
attaching any outlet raises `ValueError`. -/
def reduceTo : Except PyErr Unit :=
  .error .valueError

/-! ## MapClass (flow.py lines 256-287) -/

/-- `MapClass._do` on a non-sentinel event (flow.py lines 277-287),
parametric in the element projection `_get_safe_event_or_body` and the
result wrapping `_user_fn_output_to_event` (their two well-typed modes are
the `full_event` instantiations); the user-supplied `do()` is modelled as a
function returning its result together with whether it called
`self.filter()`, which sets `self._filter` (lines 264-266). The state is the
`_filter` flag; the second component lists the events forwarded downstream.
When the flag is set no event is forwarded and the flag is cleared for
future runs. -/
def mapClassDo (proj : Event α → ε) (wrap : Event α → β → Event α)
    (userDo : ε → β × Bool) (filterFlag : Bool) (e : Event α) :
    Bool × List (Event α) :=
  let r := userDo (proj e)
  let flag := filterFlag || r.2
  if !flag then (flag, [wrap e r.1])
  else (false, [])

/-- Processing a list of non-sentinel events in order through `MapClass._do`,
threading the `_filter` flag (initially `False`, flow.py line 262) and
collecting the forwarded events. -/
def mapClassRun (proj : Event α → ε) (wrap : Event α → β → Event α)
    (userDo : ε → β × Bool) (filterFlag : Bool) :
    List (Event α) → Bool × List (Event α)
  | [] => (filterFlag, [])
  | e :: es =>
      let p := mapClassDo proj wrap userDo filterFlag e
      let q := mapClassRun proj wrap userDo p.1 es
      (q.1, p.2 ++ q.2)

theorem foldl_defaultTerminationResultFn (rs : List (Option γ)) (r : Option γ) :
    rs.foldl defaultTerminationResultFn r = (r :: rs).findSome? id := by
  induction rs generalizing r with
  | nil => cases r <;> rfl
  | cons x xs ih =>
      cases r with
      | none =>
          simp only [List.foldl_cons, List.findSome?_cons, id, defaultTerminationResultFn,
            Option.isSome_none, Bool.false_eq_true, if_false]
          exact ih x
      | some v =>
          have : ∀ l : List (Option γ),
              l.foldl defaultTerminationResultFn (some v) = some v := by
            intro l
            induction l with
            | nil => rfl
            | cons y ys ihy => simpa [defaultTerminationResultFn] using ihy
          simp [this, List.findSome?_cons, defaultTerminationResultFn]
theorem batchingDoEvent_invariant (full_event : Bool) (m : Nat)
    (st : BatchingState α) (e : Event α) (hm : 0 < m)
    (h1 : st.event_count = st.batch.length) (h2 : st.batch.length < m) :
    (batchingDoEvent full_event (some m) st e).1.event_count
        = (batchingDoEvent full_event (some m) st e).1.batch.length
    ∧ (batchingDoEvent full_event (some m) st e).1.batch.length < m
    ∧ ((batchingDoEvent full_event (some m) st e).2.map Event.body).flatten
          ++ (batchingDoEvent full_event (some m) st e).1.batch
        = st.batch ++ [getSafeEventOrBody full_event e]
    ∧ ∀ b ∈ (batchingDoEvent full_event (some m) st e).2, b.body.length = m := by
  have hb : (if st.batch.isEmpty then { st with batch_time := e.time } else st).batch
      = st.batch := by split <;> rfl
  have hc : (if st.batch.isEmpty then { st with batch_time := e.time } else st).event_count
      = st.event_count := by split <;> rfl
  simp only [batchingDoEvent, hb, hc]
  by_cases hfull : st.event_count + 1 = m
  · have hlen : (st.batch ++ [getSafeEventOrBody full_event e]).length = m := by
      simp [h1.symm, hfull]
    have hne : ¬(st.batch ++ [getSafeEventOrBody full_event e]).isEmpty := by
      simp [List.isEmpty_iff]
    simp [hfull, batchingEmitBatch, hne, hm, hlen]
  · have : ¬ some (st.event_count + 1) = some m := by simpa using hfull
    simp only [this, if_false]
    refine ⟨by simp [h1], ?_, by simp, by simp⟩
    have : st.batch.length + 1 ≤ m := h2
    simp only [List.length_append, List.length_singleton]
    omega
theorem batchingRunEvents_invariant (full_event : Bool) (m : Nat)
    (events : List (Event α)) : ∀ st : BatchingState α, 0 < m →
    st.event_count = st.batch.length → st.batch.length < m →
    (batchingRunEvents full_event (some m) st events).1.event_count
        = (batchingRunEvents full_event (some m) st events).1.batch.length
    ∧ (batchingRunEvents full_event (some m) st events).1.batch.length < m
    ∧ ((batchingRunEvents full_event (some m) st events).2.map Event.body).flatten
          ++ (batchingRunEvents full_event (some m) st events).1.batch
        = st.batch ++ events.map (getSafeEventOrBody full_event)
    ∧ ∀ b ∈ (batchingRunEvents full_event (some m) st events).2,
        b.body.length = m := by
  induction events with
  | nil =>
      intro st hm h1 h2
      exact ⟨h1, h2, by simp [batchingRunEvents], by simp [batchingRunEvents]⟩
  | cons e es ih =>
      intro st hm h1 h2
      obtain ⟨s1, s2, s3, s4⟩ := batchingDoEvent_invariant full_event m st e hm h1 h2
      obtain ⟨r1, r2, r3, r4⟩ :=
        ih (batchingDoEvent full_event (some m) st e).1 hm s1 s2
      simp only [batchingRunEvents]
      refine ⟨r1, r2, ?_, ?_⟩
      · calc (((batchingDoEvent full_event (some m) st e).2
              ++ (batchingRunEvents full_event (some m)
                    (batchingDoEvent full_event (some m) st e).1 es).2).map
                Event.body).flatten
              ++ (batchingRunEvents full_event (some m)
                    (batchingDoEvent full_event (some m) st e).1 es).1.batch
            = ((batchingDoEvent full_event (some m) st e).2.map Event.body).flatten
              ++ (((batchingRunEvents full_event (some m)
                      (batchingDoEvent full_event (some m) st e).1 es).2.map
                    Event.body).flatten
                  ++ (batchingRunEvents full_event (some m)
                        (batchingDoEvent full_event (some m) st e).1 es).1.batch) := by
              simp
          _ = ((batchingDoEvent full_event (some m) st e).2.map Event.body).flatten
              ++ ((batchingDoEvent full_event (some m) st e).1.batch
                  ++ es.map (getSafeEventOrBody full_event)) := by rw [r3]
          _ = st.batch ++ (e :: es).map (getSafeEventOrBody full_event) := by
              rw [← List.append_assoc, s3]
              simp
      · intro b hb
        rcases List.mem_append.mp hb with h | h
        · exact s4 b h
        · exact r4 b h

/-- Claim C1: a `Reduce(v, fn)` step applies `accumulator := fn(accumulator,
element)` to each event in arrival order, `element` being the event body, or
the event itself when `full_event` is true, and on the termination sentinel
returns the final accumulator: the left fold of `fn` over the event elements
starting from `v`. -/
theorem reduce_termination_result_is_left_fold
    (full_event : Bool) (fn : β → (Event α ⊕ α) → β) (v : β)
    (events : List (Event α)) :
    (ReduceStep.runEvents ⟨full_event, fn, v⟩ events).doTermination
      = (events.map (reduceElem full_event)).foldl fn v := by
  rw [List.foldl_map]
  induction events generalizing v with
  | nil => rfl
  | cons e es ih => exact ih (fn v (reduceElem full_event e))

/-- Claim C2: forwarding the termination sentinel via `_do_downstream` returns,
for outlets yielding termination-results `r :: rs` in outlet order, the left
fold of the results under the configured `termination_result_fn`; with zero
outlets it returns `None`; and the default combiner returns its first argument
when that argument is non-null, otherwise its second argument, so folding it
yields the first non-null result overall. -/
theorem do_downstream_termination_spec (fn : Option γ → Option γ → Option γ) :
    doDownstreamTermination fn ([] : List (Option γ)) = none
    ∧ (∀ (r : Option γ) (rs : List (Option γ)),
        doDownstreamTermination fn (r :: rs) = rs.foldl fn r)
    ∧ (∀ (v : γ) (y : Option γ), defaultTerminationResultFn (some v) y = some v)
    ∧ (∀ y : Option γ, defaultTerminationResultFn none y = y)
    ∧ (∀ rs : List (Option γ),
        doDownstreamTermination defaultTerminationResultFn rs = rs.findSome? id) := by
  refine ⟨rfl, fun r rs => rfl, fun v y => rfl, fun y => rfl, fun rs => ?_⟩
  cases rs with
  | nil => rfl
  | cons r rs => exact foldl_defaultTerminationResultFn rs r

/-- Claim C4: for a `Batch` step with positive `max_events = m` and no
timeout, every emitted batch wraps at most `m` projected inputs and is
non-empty; concatenating the emitted batches in emission order recovers every
input projection exactly once, in input order; a batch is emitted as soon as
it reaches size `m` (the internal batch always stays strictly below `m`
between events); on the sentinel any non-empty partial batch is emitted
before the sentinel is forwarded; and emitting 1..10 with `m = 4` and
terminating yields exactly the batches [1,2,3,4], [5,6,7,8], [9,10]. -/
theorem batch_emits_chunks (full_event : Bool) (m : Nat) (hm : 0 < m)
    (events : List (Event α)) :
    (∀ b ∈ batchingRun full_event (some m) events,
        b.body.length ≤ m ∧ b.body ≠ [])
    ∧ ((batchingRun full_event (some m) events).map Event.body).flatten
        = events.map (getSafeEventOrBody full_event)
    ∧ (batchingRunEvents full_event (some m)
        BatchingState.initial events).1.batch.length < m
    ∧ batchingRun false (some 4)
        ((List.range 10).map (fun i => ({ body := i + 1 } : Event Nat)))
      = [{ body := [Sum.inr 1, Sum.inr 2, Sum.inr 3, Sum.inr 4] },
         { body := [Sum.inr 5, Sum.inr 6, Sum.inr 7, Sum.inr 8] },
         { body := [Sum.inr 9, Sum.inr 10] }] := by
  obtain ⟨i1, i2, i3, i4⟩ :=
    batchingRunEvents_invariant full_event m events BatchingState.initial hm rfl hm
  refine ⟨?_, ?_, i2, by decide⟩
  · intro b hb
    simp only [batchingRun] at hb
    rcases List.mem_append.mp hb with h | h
    · have hlen := i4 b h
      refine ⟨le_of_eq hlen, ?_⟩
      intro hnil
      rw [hnil] at hlen
      simp only [List.length_nil] at hlen
      omega
    · simp only [batchingDoTermination, batchingEmitBatch] at h
      split at h
      · simp at h
      · next hne =>
          simp only [List.mem_singleton] at h
          subst h
          refine ⟨le_of_lt i2, ?_⟩
          simpa [List.isEmpty_iff] using hne
  · simp only [batchingRun, batchingDoTermination, batchingEmitBatch]
    split
    · next hemp =>
        have hb : (batchingRunEvents full_event (some m)
            BatchingState.initial events).1.batch = [] := by
          simpa [List.isEmpty_iff] using hemp
        rw [hb, List.append_nil] at i3
        simpa [BatchingState.initial] using i3
    · simp only [List.map_append, List.flatten_append, List.map_cons, List.map_nil,
        List.flatten_cons, List.flatten_nil, List.append_nil]
      simpa [BatchingState.initial] using i3

/-- Claim C4 witness: the theorem instantiated at `m = 4` and inputs 1..10. -/
theorem batch_emits_chunks_witness :
    (0 : Nat) < 4
    ∧ batchingRun false (some 4)
        ((List.range 10).map (fun i => ({ body := i + 1 } : Event Nat)))
      = [{ body := [Sum.inr 1, Sum.inr 2, Sum.inr 3, Sum.inr 4] },
         { body := [Sum.inr 5, Sum.inr 6, Sum.inr 7, Sum.inr 8] },
         { body := [Sum.inr 9, Sum.inr 10] }] :=
  ⟨by decide,
   (batch_emits_chunks false 4 (by decide)
      ((List.range 10).map (fun i => ({ body := i + 1 } : Event Nat)))).2.2.2⟩

/-- Claim C3, counterexample: with the worker failing on the first handle
while two more jobs sit in the FIFO, the queue is NOT left empty (only one
item is drained), and the submission path re-raises the worker's own
exception, not a `FlowError`. -/
theorem worker_failure_claim_counterexample :
    (workerLoop ([Job.pair ⟨0, none, none⟩ (Except.error (PyErr.userError 7)),
                  Job.pair ⟨1, none, none⟩ (Except.ok 0),
                  Job.pair ⟨2, none, none⟩ (Except.ok 0)] : List (Job Nat Nat))
        []).queueAfter.length ≠ 0
    ∧ submissionCheckError (.raised (.userError 7)) ≠ PyErr.flowError := by
  constructor
  · intro h
    exact absurd h (by decide)
  · decide

/-- Claim C3 (amended): if the worker task has raised with exception `ex`, the
next call to `_do` re-raises `ex` itself — a `FlowError` is raised only when
the worker terminated without an exception — and before the exception
propagates at most one pending item (the FIFO head) is drained from the
queue, which may therefore be left non-empty; the cleanup hook runs on this
exit path (and on the normal sentinel exit). -/
theorem worker_failure_amended (e : Event α) (ex : PyErr)
    (rest : List (Job α ρ)) (acc : List (Event α × ρ)) :
    (workerLoop (Job.pair e (.error ex) :: rest) acc).raised = some ex
    ∧ (workerLoop (Job.pair e (.error ex) :: rest) acc).queueAfter = rest.tail
    ∧ rest.length ≤ (workerLoop (Job.pair e (.error ex) :: rest) acc).queueAfter.length + 1
    ∧ (workerLoop (Job.pair e (.error ex) :: rest) acc).cleanupRan = true
    ∧ (workerLoop (Job.termination :: rest) acc).cleanupRan = true
    ∧ submissionCheckError (.raised ex) = ex
    ∧ submissionCheckError .finished = PyErr.flowError := by
  have hdrain : workerExceptDrain rest = rest.tail := by
    unfold workerExceptDrain
    cases rest <;> simp
  refine ⟨rfl, ?_, ?_, rfl, rfl, rfl, rfl⟩
  · simpa [workerLoop] using hdrain
  · have : (workerLoop (Job.pair e (.error ex) :: rest) acc).queueAfter = rest.tail := by
      simpa [workerLoop] using hdrain
    rw [this]
    cases rest <;> simp

/-- Claim C5: for every non-sentinel event `e`, Complete first awaits
`_do_downstream(e)` — the whole downstream trace precedes the settle action —
and only after downstream processing has returned does it settle `e`'s
awaitable result, with `e`'s body when `full_event` is false or a copy of the
full event when `full_event` is true. -/
theorem complete_settles_after_downstream (full_event : Bool)
    (downstream : Event α → List (CompleteAction α)) (e : Event α) :
    (completeDo full_event downstream (some ()) e).1
      = downstream e ++ [CompleteAction.settle (getSafeEventOrBody full_event e)]
    ∧ (completeDo full_event downstream (some ()) e).1.getLast?
        = some (CompleteAction.settle (getSafeEventOrBody full_event e))
    ∧ (completeDo full_event downstream (some ()) e).1.dropLast = downstream e
    ∧ (full_event = false → getSafeEventOrBody full_event e = Sum.inr e.body)
    ∧ (full_event = true → getSafeEventOrBody full_event e = Sum.inl e)
    ∧ (completeDo full_event downstream (some ()) e).2 = .ok () := by
  refine ⟨rfl, ?_, ?_, ?_, ?_, rfl⟩
  · simp [completeDo]
  · simp [completeDo]
  · intro h; subst h; rfl
  · intro h; subst h; rfl

/-- Claim C5 witness: the theorem at a concrete event with body 5, an empty
downstream subtree and body mode. -/
theorem complete_settles_after_downstream_witness :
    (completeDo false (fun _ => ([] : List (CompleteAction Nat))) (some ())
        { body := 5 }).1.dropLast = []
    ∧ getSafeEventOrBody false ({ body := 5 } : Event Nat) = Sum.inr 5 :=
  ⟨(complete_settles_after_downstream false (fun _ => []) { body := 5 }).2.2.1,
   (complete_settles_after_downstream false (fun _ => []) { body := 5 }).2.2.2.1 rfl⟩

/-- Claim C9: for every non-sentinel event whose awaitable_result handle is
null, `Complete._do` raises (attribute access on the null handle:
AttributeError), and only after the event has already been forwarded
downstream — the downstream subtree's whole trace has been performed. -/
theorem complete_missing_awaitable_raises_after_downstream (full_event : Bool)
    (downstream : Event α → List (CompleteAction α)) (e : Event α) :
    (completeDo full_event downstream none e).2 = .error .attributeError
    ∧ (completeDo full_event downstream none e).1 = downstream e :=
  ⟨rfl, rfl⟩

theorem choice_find_first_match (el : Event α ⊕ α) (o : Nat)
    (p : Event α ⊕ α → Bool) (post : List (Nat × (Event α ⊕ α → Bool))) :
    ∀ pre : List (Nat × (Event α ⊕ α → Bool)),
    (∀ q ∈ pre, q.2 el = false) → p el = true →
    (pre ++ (o, p) :: post).find? (fun q => q.2 el) = some (o, p)
  | [], _, hp => List.find?_cons_of_pos _ hp
  | q :: pre, hpre, hp => by
      rw [List.cons_append, List.find?_cons_of_neg]
      · exact choice_find_first_match el o p post pre
          (fun q hq => hpre q (List.mem_cons_of_mem _ hq)) hp
      · simp [hpre q (List.mem_cons_self q pre)]

/-- Claim C6: a non-sentinel event entering a Choice step is delivered to at
most one outlet: exactly the outlet of the first predicate (in list order)
that evaluates truthy on the projected element; when no predicate is truthy,
to the default outlet when configured and otherwise to none; the termination
sentinel instead goes to every outlet, the default included. -/
theorem choice_delivers_exclusively (c : ChoiceStep α) (e : Event α) :
    (c.deliveries e).length ≤ 1
    ∧ (∀ pre o p post,
        c.choice_array = pre ++ (o, p) :: post →
        (∀ q ∈ pre, q.2 (getSafeEventOrBody c.full_event e) = false) →
        p (getSafeEventOrBody c.full_event e) = true →
        c.deliveries e = [o])
    ∧ ((∀ q ∈ c.choice_array, q.2 (getSafeEventOrBody c.full_event e) = false) →
        c.deliveries e = c.default.toList)
    ∧ c.terminationDeliveries = c.choice_array.map Prod.fst ++ c.default.toList := by
  refine ⟨?_, ?_, ?_, rfl⟩
  · unfold ChoiceStep.deliveries
    split
    · simp
    · split
      · simp
      · cases c.default <;> simp
  · intro pre o p post harr hpre hp
    have hfind : c.choice_array.find?
        (fun q => q.2 (getSafeEventOrBody c.full_event e)) = some (o, p) := by
      rw [harr]
      exact choice_find_first_match _ o p post pre hpre hp
    have houtlets : ¬ c.outlets.isEmpty := by
      unfold ChoiceStep.outlets
      rw [harr]
      simp
    unfold ChoiceStep.deliveries
    rw [if_neg houtlets, hfind]
  · intro hall
    have hfind : c.choice_array.find?
        (fun q => q.2 (getSafeEventOrBody c.full_event e)) = none := by
      rw [List.find?_eq_none]
      intro q hq
      simp [hall q hq]
    unfold ChoiceStep.deliveries
    split
    · next hemp =>
        unfold ChoiceStep.outlets at hemp
        rcases List.append_eq_nil.mp (List.isEmpty_iff.mp hemp) with ⟨-, hd⟩
        rw [hd]
    · rw [hfind]

/-- Claim C6 witness: the theorem at a two-predicate Choice with a default,
on an event whose body matches the second predicate. -/
theorem choice_delivers_exclusively_witness :
    ChoiceStep.deliveries
        ⟨[(10, fun x => x == Sum.inr 1), (20, fun x => x == Sum.inr 2)],
          some 30, false⟩ ({ body := 2 } : Event Nat)
      = [20] :=
  (choice_delivers_exclusively
      ⟨[(10, fun x => x == Sum.inr 1), (20, fun x => x == Sum.inr 2)],
        some 30, false⟩ { body := 2 }).2.1
    [(10, fun x => x == Sum.inr 1)] 20 (fun x => x == Sum.inr 2) [] rfl
    (by intro q hq; rw [List.mem_singleton] at hq; subst hq; decide) (by decide)

theorem build_flow_cons (first : FlowElem) (rest : List FlowElem) :
    build_flow (first :: rest)
      = (buildRest first rest).map fun edges => (first, edges) := by
  cases hb : buildRest first rest <;>
    simp [build_flow, hb, Except.map, Bind.bind, Except.bind, pure, Except.pure]

/-- Claim C7: build_flow, applied to a non-empty list, returns the head of
the outer list; and `build_flow [a, [b1, b2], c]` produces exactly the edges
a→b1, b1→b2, a→c (in creation order b1→b2, a→b1, a→c: a nested list is built
recursively and attached without advancing `cur_step`, while a plain step is
attached and becomes the new `cur_step`) and returns `a`. -/
theorem build_flow_spec :
    (∀ (first : FlowElem) (rest : List FlowElem) (r : FlowElem × List FlowEdge),
        build_flow (first :: rest) = .ok r → r.1 = first)
    ∧ build_flow
        [FlowElem.step 0, FlowElem.nested [FlowElem.step 1, FlowElem.step 2],
         FlowElem.step 3]
      = .ok (FlowElem.step 0,
          [(1, FlowElem.step 2), (0, FlowElem.step 1), (0, FlowElem.step 3)]) := by
  constructor
  · intro first rest r h
    rw [build_flow_cons] at h
    cases hb : buildRest first rest with
    | error ex => rw [hb] at h; simp [Except.map] at h
    | ok edges =>
        rw [hb] at h
        simp only [Except.map, Except.ok.injEq] at h
        rw [← h]
  · rw [build_flow_cons]
    have h1 : build_flow [FlowElem.step 1, FlowElem.step 2]
        = .ok (FlowElem.step 1, [(1, FlowElem.step 2)]) := by
      rw [build_flow_cons]
      simp [buildRest, flowTo, Bind.bind, Except.bind, pure, Except.pure, Except.map]
    simp [buildRest, h1, flowTo, Bind.bind, Except.bind, pure, Except.pure, Except.map]

/-- Claim C7 witness: the head-returning property applied at the concrete
graph [a, [b1, b2], c], its hypothesis discharged by the theorem's own
concrete computation. -/
theorem build_flow_spec_witness :
    (FlowElem.step 0,
      [((1 : Nat), FlowElem.step 2), (0, FlowElem.step 1),
       (0, FlowElem.step 3)]).1 = FlowElem.step 0 :=
  build_flow_spec.1 (FlowElem.step 0)
    [FlowElem.nested [FlowElem.step 1, FlowElem.step 2], FlowElem.step 3] _
    build_flow_spec.2

/-- Claim C8: each of these is rejected with an exception at
construction/build time, before any event is processed: a non-callable `fn`
to a functional step raises TypeError; a batching `timeout_secs <= 0` raises
ValueError (while an absent timeout is accepted); `build_flow` on an empty
list raises ValueError; a string table name passed to JoinWithTable with no
context raises TypeError; and attaching an outlet to the terminal Reduce
step raises ValueError. -/
theorem construction_time_rejections (s : String) (t : ℚ) (ht : t ≤ 0) :
    unaryFunctionFlowInit false = .error .typeError
    ∧ batchingInitTimeout (some t) = .error .valueError
    ∧ batchingInitTimeout none = .ok ()
    ∧ build_flow [] = .error .valueError
    ∧ joinWithTableInitTable (.name s) none = .error .typeError
    ∧ reduceTo = .error .valueError := by
  refine ⟨rfl, ?_, rfl, ?_, rfl, rfl⟩
  · simp [batchingInitTimeout, ht]
  · simp [build_flow]

/-- Claim C8 witness: the theorem at timeout 0 and a concrete table name. -/
theorem construction_time_rejections_witness :
    batchingInitTimeout (some 0) = .error .valueError
    ∧ joinWithTableInitTable (.name "t") none = .error .typeError :=
  ⟨(construction_time_rejections "t" 0 le_rfl).2.1,
   (construction_time_rejections "t" 0 le_rfl).2.2.2.2.1⟩

/-- Claim C10: MapClass's `_filter` flag is false on entry to the processing
of every event: it is false after `__init__` and false again after `_do`
returns, whatever the user's `do()` did; when `do()` calls `filter()` only
the current event is dropped, and the forwarded events of any run are
exactly the non-filtered events, each mapped, regardless of earlier filtered
events. -/
theorem mapclass_filter_only_drops_current (proj : Event α → ε)
    (wrap : Event α → β → Event α) (userDo : ε → β × Bool) :
    (∀ (st : Bool) (e : Event α), (mapClassDo proj wrap userDo st e).1 = false)
    ∧ ∀ events : List (Event α),
        (mapClassRun proj wrap userDo false events).1 = false
        ∧ (mapClassRun proj wrap userDo false events).2
            = events.filterMap fun e =>
                if (userDo (proj e)).2 then none
                else some (wrap e (userDo (proj e)).1) := by
  have hstep : ∀ (st : Bool) (e : Event α),
      (mapClassDo proj wrap userDo st e).1 = false := by
    intro st e
    unfold mapClassDo
    by_cases h : st || (userDo (proj e)).2 <;> simp [h]
  refine ⟨hstep, ?_⟩
  intro events
  induction events with
  | nil => exact ⟨rfl, rfl⟩
  | cons e es ih =>
      have hp1 : (mapClassDo proj wrap userDo false e).1 = false := hstep false e
      have hp2 : (mapClassDo proj wrap userDo false e).2
          = if (userDo (proj e)).2 then []
            else [wrap e (userDo (proj e)).1] := by
        unfold mapClassDo
        by_cases h : (userDo (proj e)).2 <;> simp [h]
      constructor
      · simp only [mapClassRun]
        rw [hp1]
        exact ih.1
      · simp only [mapClassRun, List.filterMap_cons]
        rw [hp1, hp2, ih.2]
        by_cases h : (userDo (proj e)).2 <;> simp [h]

end Storey
